import Mathlib

/-!
Shallow embedding of the pairing-and-verification pipeline of
`src/claims_checker.py` (the "Insurance Claims Verification" script).

The embedding follows the source line by line:
* `get_base_name` (source lines 61-67): `Path(filename).stem`, six
  `str.replace(suffix, '')` calls, `str.strip()`, `str.lower()`;
* the matching block (source lines 70-86): `pdf_dict` / `excel_dict`
  comprehensions (Python dict semantics: a repeated key keeps its first
  position and takes the last value) and the two loops filling
  `matched_pairs`, `unmatched_pdfs`, `unmatched_excels`;
* the zero-pair check (source lines 101-104) that stops the run before the
  Anthropic client is created;
* the per-pair processing loop (source lines 117-236) with its
  `try`/`except` body, modelled by an oracle `step` covering the fallible
  body (file reads, extraction, API invocation);
* the result aggregation (source lines 245-246) and the downloadable
  report string (source lines 260-263);
* the CSV branch of tabular extraction (source lines 126-133), with a
  byte-level model of `bytes.decode('utf-8', errors='ignore')`.

Strings are modelled as Lean `String` (lists of unicode scalar values);
`str.strip` is modelled on the ASCII whitespace the filenames use, and
`str.lower` by `Char.toLower`, which matches CPython's `str.lower` on the
basic latin range.
-/

/-- Boolean test that `pat` is a prefix of the second list, comparing
characters by propositional equality (Python substring search primitive). -/
def isPrefixB : List Char → List Char → Bool
  | [], _ => true
  | _ :: _, [] => false
  | a :: as, b :: bs => decide (a = b) && isPrefixB as bs

/-- Boolean test that `pat` occurs as a contiguous substring of the second
list; models Python's `pat in s` for strings. -/
def isInfixB (pat : List Char) : List Char → Bool
  | [] => isPrefixB pat []
  | c :: rest => isPrefixB pat (c :: rest) || isInfixB pat rest

/-- Models the Python membership test `pat in s` on strings (substring
containment), used by the discrepancy counter at source line 245. -/
def containsSubstr (s pat : String) : Bool :=
  isInfixB pat.data s.data

/-- Boolean test that `pat` is a suffix; models Python's `str.endswith`,
used by the extension dispatch at source line 127. -/
def isSuffixB (pat s : String) : Bool :=
  isPrefixB pat.data.reverse s.data.reverse

/-- Index of the last occurrence of `c`, if any; models Python's
`str.rfind` as used by `pathlib`'s suffix/stem computation. -/
def lastIdxOf (c : Char) : List Char → Option Nat
  | [] => none
  | a :: rest =>
    match lastIdxOf c rest with
    | some i => some (i + 1)
    | none => if a = c then some 0 else none

/-- Models `Path(filename).stem` (source line 63) for plain uploaded file
names (no path separator): the name without its extension, where the
extension starts at the last `'.'` provided that dot is neither the first
nor the last character (`pathlib`'s rule). -/
def stem (s : List Char) : List Char :=
  match lastIdxOf '.' s with
  | some i => if 0 < i ∧ i < s.length - 1 then s.take i else s
  | none => s

/-- Left-to-right deletion scan: `skip` counts characters still to drop
from a matched occurrence; at `skip = 0` a fresh match of `pat` drops its
first character and sets `skip` to the remaining pattern length. -/
def removeAllAux (pat : List Char) : Nat → List Char → List Char
  | _, [] => []
  | skip + 1, _ :: rest => removeAllAux pat skip rest
  | 0, c :: rest =>
    if pat ≠ [] ∧ isPrefixB pat (c :: rest) = true then
      removeAllAux pat (pat.length - 1) rest
    else
      c :: removeAllAux pat 0 rest

/-- Models Python's `name.replace(pat, '')` (source line 66): delete every
non-overlapping occurrence of `pat`, scanning left to right.  An empty
pattern leaves the string unchanged, as `str.replace('', '')` does. -/
def removeAll (pat s : List Char) : List Char :=
  removeAllAux pat 0 s

/-- The fixed ordered suffix-token list of source line 65. -/
def suffixTokens : List String :=
  ["_invoice", "_claim", "_statement", " invoice", " claim", " statement"]

/-- Leading-whitespace removal, first half of Python's `str.strip()`. -/
def stripLead (s : List Char) : List Char :=
  s.dropWhile Char.isWhitespace

/-- Trailing-whitespace removal, second half of Python's `str.strip()`. -/
def stripTrail (s : List Char) : List Char :=
  (s.reverse.dropWhile Char.isWhitespace).reverse

/-- Models Python's `str.strip()` (source line 67) on the ASCII whitespace
occurring in file names. -/
def pyStrip (s : List Char) : List Char :=
  stripTrail (stripLead s)

/-- Models `get_base_name` (source lines 61-67): strip the extension,
delete the six suffix tokens in order (case-sensitively, as
`str.replace` is), strip surrounding whitespace, lower-case the result
(`Char.toLower` matches CPython's `str.lower` on basic latin). -/
def get_base_name (filename : String) : String :=
  let name := stem filename.data
  let name := suffixTokens.foldl (fun n tok => removeAll tok.data n) name
  String.mk ((pyStrip name).map Char.toLower)

/-- An uploaded file: its name and raw byte content (source §file upload). -/
structure UploadedFile where
  name : String
  bytes : List Nat
deriving DecidableEq

/-- The matching key of a file, `get_base_name(f.name)` as used at source
lines 70-71. -/
def fileKey (f : UploadedFile) : String :=
  get_base_name f.name

/-- Python dict assignment `d[k] = v`: an existing key keeps its position
and takes the new value, a new key is appended. -/
def dictInsert (d : List (String × UploadedFile)) (k : String) (v : UploadedFile) :
    List (String × UploadedFile) :=
  if d.any (fun p => decide (p.1 = k)) then
    d.map (fun p => if p.1 = k then (k, v) else p)
  else
    d ++ [(k, v)]

/-- Models the dict comprehension `{get_base_name(f.name): f for f in files}`
(source lines 70-71), preserving Python dict insertion-order semantics. -/
def buildDict (files : List UploadedFile) : List (String × UploadedFile) :=
  files.foldl (fun d f => dictInsert d (fileKey f) f) []

/-- Python's `k in d` on the modelled dict. -/
def dictContains (d : List (String × UploadedFile)) (k : String) : Bool :=
  d.any (fun p => decide (p.1 = k))

/-- Python's `d[k]` on the modelled dict (keys are unique by construction,
so the first hit is the entry). -/
def dictGet (d : List (String × UploadedFile)) (k : String) : Option UploadedFile :=
  (d.find? (fun p => decide (p.1 = k))).map Prod.snd

/-- Output of the matching block: matched pairs and the two unmatched name
lists (source lines 74-86). -/
structure MatchOutput where
  matched : List (UploadedFile × UploadedFile)
  unmatched_pdfs : List String
  unmatched_excels : List String
deriving DecidableEq

/-- Models the matching block (source lines 70-86).  The two `for` loops
append each dict entry to exactly one output list, in dict order, which is
the `filterMap`/`filter` below. -/
def matchFiles (pdf_files excel_files : List UploadedFile) : MatchOutput :=
  let pdf_dict := buildDict pdf_files
  let excel_dict := buildDict excel_files
  { matched :=
      pdf_dict.filterMap (fun np => (dictGet excel_dict np.1).map (fun e => (np.2, e)))
  , unmatched_pdfs :=
      (pdf_dict.filter (fun np => ! dictContains excel_dict np.1)).map (fun np => np.2.name)
  , unmatched_excels :=
      (excel_dict.filter (fun ne => ! dictContains pdf_dict ne.1)).map (fun ne => ne.2.name) }

/-- One entry of the `results` list (source lines 222-233).  The source
records the dict `{"pdf": …, "excel": …, "result": …}`; `isError` records
which branch of the `try`/`except` produced the entry (the spec's
`PairResult.isError`, marked in the source by the error-prefixed text). -/
structure PairResult where
  pdf : String
  excel : String
  result : String
  isError : Bool
deriving DecidableEq

/-- Default pair used with `List.getD` in statements about list entries. -/
def defaultPair : UploadedFile × UploadedFile :=
  (⟨"", []⟩, ⟨"", []⟩)

/-- Default result used with `List.getD` in statements about list entries. -/
def defaultResult : PairResult :=
  ⟨"", "", "", false⟩

/-- The fixed error prefix of the `except` branch (source line 232). -/
def errPrefix : String := "❌ Error processing: "

/-- Whether an `Except` value is a success. -/
def isOkB (e : Except String String) : Bool :=
  match e with
  | Except.ok _ => true
  | Except.error _ => false

/-- One iteration of the processing loop (source lines 117-233): the
fallible body (PDF read, tabular extraction, comparator invocation) is the
oracle `step`, indexed by the loop counter; success appends a normal
entry, an exception appends an error entry with the prefixed message. -/
def processPair (step : Nat → UploadedFile × UploadedFile → Except String String)
    (idx : Nat) (p : UploadedFile × UploadedFile) : PairResult :=
  match step idx p with
  | Except.ok t => ⟨p.1.name, p.2.name, t, false⟩
  | Except.error e => ⟨p.1.name, p.2.name, errPrefix ++ e, true⟩

/-- The processing loop from loop counter `idx` on: models
`for idx, (pdf_file, excel_file) in enumerate(matched_pairs)`
(source line 117), appending exactly one result per pair. -/
def runPairsFrom (step : Nat → UploadedFile × UploadedFile → Except String String) :
    Nat → List (UploadedFile × UploadedFile) → List PairResult
  | _, [] => []
  | idx, p :: rest => processPair step idx p :: runPairsFrom step (idx + 1) rest

/-- The whole processing loop (source lines 113-236). -/
def runPairs (step : Nat → UploadedFile × UploadedFile → Except String String)
    (pairs : List (UploadedFile × UploadedFile)) : List PairResult :=
  runPairsFrom step 0 pairs

/-- The fatal message shown when no pair matched (source line 102). -/
def noMatchMsg : String :=
  "No matching pairs found. Make sure PDF and Excel files have similar names."

/-- Models the run after matching (source lines 101-236): when
`len(matched_pairs) == 0` the script errors and stops (source lines
101-104) before the Anthropic client is created and before the loop;
otherwise the loop runs. -/
def runPipeline (m : MatchOutput)
    (step : Nat → UploadedFile × UploadedFile → Except String String) :
    Except String (List PairResult) :=
  if m.matched.length = 0 then Except.error noMatchMsg
  else Except.ok (runPairs step m.matched)

/-- Models `sum(1 for r in results if "DISCREPANCY" in r["result"])`
(source line 245). -/
def discrepancy_count (results : List PairResult) : Nat :=
  results.foldl (fun acc r => if containsSubstr r.result ("DISCREPANCY") then acc + 1 else acc) 0

/-- Models `match_count = total_pairs - discrepancy_count` (source line
246); `total_pairs` is `len(matched_pairs)`. -/
def match_count (total_pairs : Nat) (results : List PairResult) : Nat :=
  total_pairs - discrepancy_count results

/-- The labelled report blocks, one per result, numbered from `idx`
(source lines 260-263: `f"CLAIM #{idx}\nPDF: …\nExcel: …\n\n…"` over
`enumerate(results, 1)`). -/
def renderBlocksFrom (idx : Nat) : List PairResult → List String
  | [] => []
  | r :: rest =>
    ("CLAIM #" ++ toString idx ++ "\nPDF: " ++ r.pdf ++ "\nExcel: " ++ r.excel
      ++ "\n\n" ++ r.result) :: renderBlocksFrom (idx + 1) rest

/-- The 80-character separator line `"="*80` of source line 260. -/
def sep80 : String := String.mk (List.replicate 80 '=')

/-- Models `results_text = "\n\n" + "="*80 + "\n\n".join([...])` (source
lines 260-263) with Python's operator precedence: the separator line is
concatenated once in front, and the blocks are joined by `"\n\n"`. -/
def results_text (results : List PairResult) : String :=
  "\n\n" ++ sep80 ++ String.intercalate ("\n\n") (renderBlocksFrom 1 results)

/-- Continuation-byte test for UTF-8 decoding. -/
def isUtf8Cont (b : Nat) : Bool :=
  decide (0x80 ≤ b) && decide (b ≤ 0xBF)

/-- Allowed second-byte range of a three-byte UTF-8 sequence with lead `b`
(the restrictions exclude overlong forms and surrogates). -/
def utf8Second3 (b b2 : Nat) : Bool :=
  if b = 0xE0 then decide (0xA0 ≤ b2) && decide (b2 ≤ 0xBF)
  else if b = 0xED then decide (0x80 ≤ b2) && decide (b2 ≤ 0x9F)
  else isUtf8Cont b2

/-- Allowed second-byte range of a four-byte UTF-8 sequence with lead `b`
(the restrictions exclude overlong forms and values above U+10FFFF). -/
def utf8Second4 (b b2 : Nat) : Bool :=
  if b = 0xF0 then decide (0x90 ≤ b2) && decide (b2 ≤ 0xBF)
  else if b = 0xF4 then decide (0x80 ≤ b2) && decide (b2 ≤ 0x8F)
  else isUtf8Cont b2

/-- The decoding scan behind `bytes.decode('utf-8', errors='ignore')`,
written with a step budget so that it is structurally recursive; every
step consumes at least one byte, so a budget of `bytes.length` is always
enough (see `decodeUtf8Ignore`). -/
def decodeUtf8IgnoreAux : Nat → List Nat → List Char
  | 0, _ => []
  | _ + 1, [] => []
  | fuel + 1, b :: rest =>
    if b < 0x80 then Char.ofNat b :: decodeUtf8IgnoreAux fuel rest
    else if 0xC2 ≤ b ∧ b ≤ 0xDF then
      match rest with
      | [] => []
      | b2 :: rest2 =>
        if isUtf8Cont b2 then
          Char.ofNat ((b - 0xC0) * 0x40 + (b2 - 0x80)) :: decodeUtf8IgnoreAux fuel rest2
        else decodeUtf8IgnoreAux fuel (b2 :: rest2)
    else if 0xE0 ≤ b ∧ b ≤ 0xEF then
      match rest with
      | b2 :: b3 :: rest3 =>
        if utf8Second3 b b2 && isUtf8Cont b3 then
          Char.ofNat ((b - 0xE0) * 0x1000 + (b2 - 0x80) * 0x40 + (b3 - 0x80))
            :: decodeUtf8IgnoreAux fuel rest3
        else decodeUtf8IgnoreAux fuel (b2 :: b3 :: rest3)
      | [b2] => decodeUtf8IgnoreAux fuel [b2]
      | [] => []
    else if 0xF0 ≤ b ∧ b ≤ 0xF4 then
      match rest with
      | b2 :: b3 :: b4 :: rest4 =>
        if utf8Second4 b b2 && isUtf8Cont b3 && isUtf8Cont b4 then
          Char.ofNat ((b - 0xF0) * 0x40000 + (b2 - 0x80) * 0x1000
              + (b3 - 0x80) * 0x40 + (b4 - 0x80)) :: decodeUtf8IgnoreAux fuel rest4
        else decodeUtf8IgnoreAux fuel (b2 :: b3 :: b4 :: rest4)
      | [b2, b3] => decodeUtf8IgnoreAux fuel [b2, b3]
      | [b2] => decodeUtf8IgnoreAux fuel [b2]
      | [] => []
    else decodeUtf8IgnoreAux fuel rest

/-- Models `bytes.decode('utf-8', errors='ignore')` (source line 129):
well-formed sequences are decoded, bytes belonging to ill-formed sequences
are dropped and decoding continues; decoding never fails.  On an error the
model skips one byte; this yields the same decoded text as CPython's
maximal-subpart skipping, because a continuation byte is never a valid
sequence start. -/
def decodeUtf8Ignore (bytes : List Nat) : List Char :=
  decodeUtf8IgnoreAux bytes.length bytes

/-- Models the tabular extraction of source lines 126-133: a `.csv` name is
decoded as text with `errors='ignore'`; any other (spreadsheet) name goes
through `pd.read_excel` / `DataFrame.to_string`, modelled by the fallible
oracle `excelReader`. -/
def extractTabular (excelReader : List Nat → Except String String)
    (f : UploadedFile) : Except String String :=
  if isSuffixB (".csv") f.name then Except.ok (String.mk (decodeUtf8Ignore f.bytes))
  else excelReader f.bytes

/-- Sample result list of the spec's aggregation test: one verdict carrying
the discrepancy marker, one plain match verdict. -/
def sampleResults : List PairResult :=
  [⟨"a.pdf", "a.csv", "DISCREPANCY FOUND in premium totals", false⟩,
   ⟨"b.pdf", "b.csv", "Status: MATCH", false⟩]

/-- Concrete report uploads used to instantiate matcher theorems. -/
def demoPdfs : List UploadedFile :=
  [⟨"claim_001.pdf", [1]⟩, ⟨"policy 9.pdf", [2]⟩]

/-- Concrete tabular uploads used to instantiate matcher theorems. -/
def demoExcels : List UploadedFile :=
  [⟨"claim_001_invoice.xlsx", [3]⟩]

/-- Concrete matched pairs used to instantiate processing-loop theorems. -/
def demoPairs : List (UploadedFile × UploadedFile) :=
  [(⟨"a.pdf", [1]⟩, ⟨"a.csv", [2]⟩),
   (⟨"b.pdf", [3]⟩, ⟨"b.csv", [4]⟩),
   (⟨"c.pdf", [5]⟩, ⟨"c.csv", [6]⟩)]

/-- Concrete comparator stub: the second pair raises, the others answer. -/
def demoStep : Nat → UploadedFile × UploadedFile → Except String String :=
  fun i _ => if i = 1 then Except.error ("API connection failed") else Except.ok ("Status: MATCH")

/-- Concrete spreadsheet-reader stub used to instantiate extraction
theorems. -/
def demoReader : List Nat → Except String String :=
  fun _ => Except.error ("pandas")

/-- Concrete CSV upload used to instantiate extraction theorems. -/
def demoCsv : UploadedFile :=
  ⟨"data.csv", [72, 105]⟩

/-! General lemmas about the embedded operations. -/

theorem lem_foldl_count {α : Type} (p : α → Bool) :
    ∀ (l : List α) (acc : Nat),
      l.foldl (fun a r => if p r then a + 1 else a) acc = acc + l.countP p := by
  intro l
  induction l with
  | nil => intro acc; simp [List.countP_nil]
  | cons a l ih =>
    intro acc
    simp only [List.foldl_cons, List.countP_cons, ih]
    by_cases h : p a = true
    · simp [h]; omega
    · simp [h]

theorem lem_discrepancy_count_eq (results : List PairResult) :
    discrepancy_count results
      = results.countP (fun r => containsSubstr r.result ("DISCREPANCY")) := by
  unfold discrepancy_count
  rw [lem_foldl_count]
  exact Nat.zero_add _

theorem lem_runPairsFrom_length
    (step : Nat → UploadedFile × UploadedFile → Except String String) :
    ∀ (n : Nat) (l : List (UploadedFile × UploadedFile)),
      (runPairsFrom step n l).length = l.length := by
  intro n l
  induction l generalizing n with
  | nil => rfl
  | cons p rest ih => simp [runPairsFrom, ih]

theorem lem_decodeAux_ascii :
    ∀ (fuel : Nat) (bs : List Nat), bs.length ≤ fuel → (∀ b ∈ bs, b < 128) →
      decodeUtf8IgnoreAux fuel bs = bs.map Char.ofNat := by
  intro fuel
  induction fuel with
  | zero =>
    intro bs hlen _
    have : bs = [] := List.eq_nil_of_length_eq_zero (Nat.le_zero.mp hlen)
    subst this
    rfl
  | succ fuel ih =>
    intro bs hlen hb
    match bs with
    | [] => rfl
    | b :: rest =>
      have hblt : b < 128 := hb b (List.mem_cons_self b rest)
      simp only [decodeUtf8IgnoreAux, if_pos hblt, List.map_cons]
      have : rest.length ≤ fuel := by
        simp only [List.length_cons] at hlen; omega
      rw [ih rest this (fun x hx => hb x (List.mem_cons_of_mem b hx))]

theorem lem_decode_ascii (bs : List Nat) (hb : ∀ b ∈ bs, b < 128) :
    decodeUtf8Ignore bs = bs.map Char.ofNat :=
  lem_decodeAux_ascii bs.length bs (Nat.le_refl _) hb

/-- Claim C3: for every list of results, `discrepancy_count` is the number
of results whose verdict text contains the substring `DISCREPANCY`;
`match_count` is the total number of results minus `discrepancy_count`
(the loop emits exactly one result per pair, so `total_pairs` is the
result count); on the two-result list with one discrepancy verdict and one
match verdict the counts are 1 and 1. -/
theorem claim3_summary_counts :
    (∀ results : List PairResult,
        discrepancy_count results
          = (results.filter (fun r => containsSubstr r.result ("DISCREPANCY"))).length)
    ∧ (∀ (step : Nat → UploadedFile × UploadedFile → Except String String)
          (pairs : List (UploadedFile × UploadedFile)),
        match_count pairs.length (runPairs step pairs)
          = (runPairs step pairs).length - discrepancy_count (runPairs step pairs))
    ∧ discrepancy_count sampleResults = 1
    ∧ match_count 2 sampleResults = 1 := by
  refine ⟨?_, ?_, by decide, by decide⟩
  · intro results
    rw [lem_discrepancy_count_eq, List.countP_eq_length_filter]
  · intro step pairs
    unfold match_count runPairs
    rw [lem_runPairsFrom_length]

/-- Claim C4 counterexample: the two filenames of the claim do not get the
same key, because `str.replace` is case-sensitive and `" Invoice"` is not
`" invoice"`. -/
theorem claim4_counterexample :
    get_base_name ("Policy 456 Invoice.pdf") ≠ get_base_name ("policy 456.csv") := by
  decide

/-- Claim C4 amended: suffix-token removal is case-sensitive, so
`"Policy 456 Invoice.pdf"` keeps its `" Invoice"` part (only lower-cased at
the end) while `"policy 456.csv"` maps to `"policy 456"`; with the token in
lower case the two names do agree. -/
theorem claim4_case_sensitive_suffix_removal :
    get_base_name ("Policy 456 Invoice.pdf") = "policy 456 invoice"
    ∧ get_base_name ("policy 456.csv") = "policy 456"
    ∧ get_base_name ("policy 456 invoice.pdf") = get_base_name ("policy 456.csv") := by
  decide

set_option maxRecDepth 8000 in
/-- Claim C5: evaluating the report renderer on two results shows the
Python operator-precedence slip at source line 260: the 80-character
separator line appears exactly once, concatenated in front of the first
block, and the two adjacent blocks are joined only by a blank line — not
by the separator.  The second conjunct counts all `'='` characters of the
output: one separator's worth, not two. -/
theorem claim5_separator_not_between_blocks :
    (results_text [⟨"a.pdf", "a.csv", "Status: MATCH", false⟩,
        ⟨"b.pdf", "b.csv", "Status: MATCH", false⟩]).data
      = ("\n\n").data ++ List.replicate 80 '='
          ++ ("CLAIM #1\nPDF: a.pdf\nExcel: a.csv\n\nStatus: MATCH\n\nCLAIM #2\nPDF: b.pdf\nExcel: b.csv\n\nStatus: MATCH").data
    ∧ ((results_text [⟨"a.pdf", "a.csv", "Status: MATCH", false⟩,
        ⟨"b.pdf", "b.csv", "Status: MATCH", false⟩]).data.countP (fun c => decide (c = '='))) = 80 := by
  decide

/-- Claim C6 counterexample: `get_base_name` is not idempotent — the key of
`"a.b.c"` is `"a.b"`, whose own key is `"a"`, because the second pass
strips another extension from the already-normalized key. -/
theorem claim6_counterexample :
    get_base_name (get_base_name ("a.b.c")) ≠ get_base_name ("a.b.c") := by
  decide

/-- Claim C9 counterexample: for a `.csv` file the single invalid byte
`0xFF` is dropped, not replaced — the decoded text is empty, with no
replacement character: the source passes `errors='ignore'`, not
`errors='replace'`. -/
theorem claim9_counterexample :
    extractTabular demoReader ⟨"x.csv", [255]⟩ = Except.ok ("") := by
  rfl

/-- Claim C9 amended: for every tabular file whose name ends in `.csv` and
every byte content, extraction succeeds with the `errors='ignore'` decoded
text (decoding is total; ill-formed bytes are dropped), and on pure ASCII
content the bytes decode verbatim. -/
theorem claim9_csv_decoding_total (excelReader : List Nat → Except String String)
    (f : UploadedFile) (h : isSuffixB (".csv") f.name = true) :
    extractTabular excelReader f = Except.ok (String.mk (decodeUtf8Ignore f.bytes))
    ∧ ((∀ b ∈ f.bytes, b < 128) →
        extractTabular excelReader f = Except.ok (String.mk (f.bytes.map Char.ofNat))) := by
  constructor
  · unfold extractTabular
    rw [if_pos h]
  · intro hb
    unfold extractTabular
    rw [if_pos h, lem_decode_ascii f.bytes hb]

/-- Witness for the amended C9 theorem at a concrete CSV upload. -/
theorem claim9_witness :
    isSuffixB (".csv") demoCsv.name = true
    ∧ (extractTabular demoReader demoCsv
          = Except.ok (String.mk (decodeUtf8Ignore demoCsv.bytes))
        ∧ ((∀ b ∈ demoCsv.bytes, b < 128) →
            extractTabular demoReader demoCsv
              = Except.ok (String.mk (demoCsv.bytes.map Char.ofNat)))) :=
  ⟨by decide, claim9_csv_decoding_total demoReader demoCsv (by decide)⟩

theorem lem_runPairsFrom_getD
    (step : Nat → UploadedFile × UploadedFile → Except String String) :
    ∀ (l : List (UploadedFile × UploadedFile)) (n i : Nat), i < l.length →
      (runPairsFrom step n l).getD i defaultResult
        = processPair step (n + i) (l.getD i defaultPair) := by
  intro l
  induction l with
  | nil => intro n i hi; simp at hi
  | cons p rest ih =>
    intro n i hi
    match i with
    | 0 => simp [runPairsFrom]
    | i + 1 =>
      have hi' : i < rest.length := by simp only [List.length_cons] at hi; omega
      simp only [runPairsFrom, List.getD_cons_succ]
      rw [ih (n + 1) i hi']
      have : n + 1 + i = n + (i + 1) := by omega
      rw [this]

theorem lem_runPairs_getD
    (step : Nat → UploadedFile × UploadedFile → Except String String)
    (pairs : List (UploadedFile × UploadedFile)) (i : Nat) (hi : i < pairs.length) :
    (runPairs step pairs).getD i defaultResult
      = processPair step i (pairs.getD i defaultPair) := by
  unfold runPairs
  rw [lem_runPairsFrom_getD step pairs 0 i hi]
  rw [Nat.zero_add]

/-- Claim C1: the processing loop returns exactly one result per matched
pair, in the original order (entry `i` carries the names of pair `i`);
when the fallible body fails exactly at index `k`, entry `k` is the only
error entry and its verdict text is the error prefix followed by the
exception message. -/
theorem claim1_loop_isolates_failures
    (step : Nat → UploadedFile × UploadedFile → Except String String)
    (pairs : List (UploadedFile × UploadedFile)) (k : Nat)
    (hk : k < pairs.length)
    (hfail : isOkB (step k (pairs.getD k defaultPair)) = false)
    (hok : ∀ i, i < pairs.length → i ≠ k →
      isOkB (step i (pairs.getD i defaultPair)) = true) :
    (runPairs step pairs).length = pairs.length
    ∧ (∀ i, i < pairs.length →
        ((runPairs step pairs).getD i defaultResult).pdf = (pairs.getD i defaultPair).1.name
        ∧ ((runPairs step pairs).getD i defaultResult).excel = (pairs.getD i defaultPair).2.name
        ∧ ((runPairs step pairs).getD i defaultResult).isError = decide (i = k))
    ∧ (∀ e, step k (pairs.getD k defaultPair) = Except.error e →
        ((runPairs step pairs).getD k defaultResult).result = errPrefix ++ e) := by
  refine ⟨lem_runPairsFrom_length step 0 pairs, ?_, ?_⟩
  · intro i hi
    rw [lem_runPairs_getD step pairs i hi]
    unfold processPair
    cases hstep : step i (pairs.getD i defaultPair) with
    | ok t =>
      have hik : i ≠ k := by
        intro hik
        subst hik
        rw [hstep] at hfail
        simp [isOkB] at hfail
      simp [hik]
    | error e =>
      have hik : i = k := by
        by_contra hik
        have := hok i hi hik
        rw [hstep] at this
        simp [isOkB] at this
      simp [hik]
  · intro e he
    rw [lem_runPairs_getD step pairs k hk]
    unfold processPair
    rw [he]

/-- Witness for the C1 theorem: three pairs, the comparator stub failing
at index 1 only. -/
theorem claim1_witness :
    1 < demoPairs.length
    ∧ isOkB (demoStep 1 (demoPairs.getD 1 defaultPair)) = false
    ∧ (∀ i, i < demoPairs.length → i ≠ 1 →
        isOkB (demoStep i (demoPairs.getD i defaultPair)) = true)
    ∧ ((runPairs demoStep demoPairs).length = demoPairs.length
        ∧ (∀ i, i < demoPairs.length →
            ((runPairs demoStep demoPairs).getD i defaultResult).pdf
              = (demoPairs.getD i defaultPair).1.name
            ∧ ((runPairs demoStep demoPairs).getD i defaultResult).excel
              = (demoPairs.getD i defaultPair).2.name
            ∧ ((runPairs demoStep demoPairs).getD i defaultResult).isError = decide (i = 1))
        ∧ (∀ e, demoStep 1 (demoPairs.getD 1 defaultPair) = Except.error e →
            ((runPairs demoStep demoPairs).getD 1 defaultResult).result = errPrefix ++ e)) :=
  ⟨by decide, by decide, by decide,
    claim1_loop_isolates_failures demoStep demoPairs 1 (by decide) (by decide) (by decide)⟩

/-- Claim C8: whenever matching produced zero pairs, the run errors out
with the fatal message before any processing: no result list is produced,
and the outcome does not depend on the comparator oracle at all (so no
comparator invocation is consumed). -/
theorem claim8_zero_pairs_halts (pdfs excels : List UploadedFile)
    (h : (matchFiles pdfs excels).matched = []) :
    (∀ step, runPipeline (matchFiles pdfs excels) step = Except.error noMatchMsg)
    ∧ (∀ step₁ step₂,
        runPipeline (matchFiles pdfs excels) step₁ = runPipeline (matchFiles pdfs excels) step₂)
    ∧ (∀ step results, runPipeline (matchFiles pdfs excels) step ≠ Except.ok results) := by
  have hlen : (matchFiles pdfs excels).matched.length = 0 := by rw [h]; rfl
  refine ⟨?_, ?_, ?_⟩
  · intro step
    unfold runPipeline
    rw [if_pos hlen]
  · intro step₁ step₂
    unfold runPipeline
    rw [if_pos hlen, if_pos hlen]
  · intro step results hc
    unfold runPipeline at hc
    rw [if_pos hlen] at hc
    exact Except.noConfusion hc

/-- Witness for the C8 theorem: one report file and one tabular file whose
keys differ, so matching yields zero pairs. -/
theorem claim8_witness :
    (matchFiles [⟨"a.pdf", [1]⟩] [⟨"b.csv", [2]⟩]).matched = []
    ∧ ((∀ step, runPipeline (matchFiles [⟨"a.pdf", [1]⟩] [⟨"b.csv", [2]⟩]) step
          = Except.error noMatchMsg)
        ∧ (∀ step₁ step₂,
            runPipeline (matchFiles [⟨"a.pdf", [1]⟩] [⟨"b.csv", [2]⟩]) step₁
              = runPipeline (matchFiles [⟨"a.pdf", [1]⟩] [⟨"b.csv", [2]⟩]) step₂)
        ∧ (∀ step results,
            runPipeline (matchFiles [⟨"a.pdf", [1]⟩] [⟨"b.csv", [2]⟩]) step
              ≠ Except.ok results)) :=
  ⟨by decide, claim8_zero_pairs_halts [⟨"a.pdf", [1]⟩] [⟨"b.csv", [2]⟩] (by decide)⟩

theorem lem_getD_decomp {α : Type} :
    ∀ (l : List α) (j : Nat) (d : α), j < l.length →
      l = l.take j ++ l.getD j d :: l.drop (j + 1) := by
  intro l
  induction l with
  | nil => intro j d hj; simp at hj
  | cons a l ih =>
    intro j d hj
    match j with
    | 0 => simp
    | j + 1 =>
      have hj' : j < l.length := by simp only [List.length_cons] at hj; omega
      simp only [List.take_succ_cons, List.getD_cons_succ, List.drop_succ_cons,
        List.cons_append, List.cons.injEq, true_and]
      exact ih j d hj'

theorem lem_runPairsFrom_append
    (step : Nat → UploadedFile × UploadedFile → Except String String) :
    ∀ (A B : List (UploadedFile × UploadedFile)) (n : Nat),
      runPairsFrom step n (A ++ B)
        = runPairsFrom step n A ++ runPairsFrom step (n + A.length) B := by
  intro A
  induction A with
  | nil => intro B n; simp [runPairsFrom]
  | cons p A ih =>
    intro B n
    have h1 : runPairsFrom step n ((p :: A) ++ B)
        = processPair step n p :: runPairsFrom step (n + 1) (A ++ B) := rfl
    have h2 : runPairsFrom step n (p :: A)
        = processPair step n p :: runPairsFrom step (n + 1) A := rfl
    rw [h1, h2, ih B (n + 1)]
    simp only [List.length_cons, List.cons_append]
    have : n + 1 + A.length = n + (A.length + 1) := by omega
    rw [this]

theorem lem_eraseIdx_append {α : Type} :
    ∀ (A : List α) (r : α) (B : List α), (A ++ r :: B).eraseIdx A.length = A ++ B := by
  intro A
  induction A with
  | nil => intro r B; rfl
  | cons a A ih =>
    intro r B
    simp only [List.cons_append, List.length_cons, List.eraseIdx_cons_succ,
      List.cons.injEq, true_and]
    exact ih r B

theorem lem_getD_append_len {α : Type} :
    ∀ (A : List α) (r : α) (B : List α) (d : α), (A ++ r :: B).getD A.length d = r := by
  intro A
  induction A with
  | nil => intro r B d; rfl
  | cons a A ih =>
    intro r B d
    simp only [List.cons_append, List.length_cons, List.getD_cons_succ]
    exact ih r B d

theorem lem_isInfixB_append (ph : Char) (pt : List Char) :
    ∀ (a b : List Char), isInfixB (ph :: pt) (a ++ b) = true →
      ph ∈ a ∨ isInfixB (ph :: pt) b = true := by
  intro a
  induction a with
  | nil => intro b h; right; simpa using h
  | cons c a ih =>
    intro b h
    simp only [List.cons_append, isInfixB, Bool.or_eq_true] at h
    rcases h with h | h
    · simp only [isPrefixB, Bool.and_eq_true, decide_eq_true_eq] at h
      left
      rw [h.1]
      exact List.mem_cons_self c a
    · rcases ih b h with hm | hb
      · left; exact List.mem_cons_of_mem c hm
      · right; exact hb

theorem lem_errPrefix_no_marker (m : String)
    (hm : containsSubstr m ("DISCREPANCY") = false) :
    containsSubstr (errPrefix ++ m) ("DISCREPANCY") = false := by
  cases h : containsSubstr (errPrefix ++ m) ("DISCREPANCY") with
  | false => rfl
  | true =>
    exfalso
    have hd : ("DISCREPANCY" : String).data = 'D' :: ("ISCREPANCY" : String).data := rfl
    unfold containsSubstr at h
    rw [String.data_append, hd] at h
    rcases lem_isInfixB_append 'D' (("ISCREPANCY" : String).data) errPrefix.data m.data h with
      hmem | hb
    · exact absurd hmem (by decide)
    · unfold containsSubstr at hm
      rw [hd] at hm
      rw [hm] at hb
      exact Bool.false_ne_true hb

theorem lem_run_decomp
    (step : Nat → UploadedFile × UploadedFile → Except String String)
    (pairs : List (UploadedFile × UploadedFile)) (j : Nat) (hj : j < pairs.length) :
    runPairs step pairs
      = runPairsFrom step 0 (pairs.take j)
        ++ processPair step j (pairs.getD j defaultPair)
          :: runPairsFrom step (j + 1) (pairs.drop (j + 1)) := by
  have htl : (pairs.take j).length = j := by
    rw [List.length_take]
    omega
  unfold runPairs
  rw [congrArg (runPairsFrom step 0) (lem_getD_decomp pairs j defaultPair hj)]
  rw [lem_runPairsFrom_append step (pairs.take j)
    (pairs.getD j defaultPair :: pairs.drop (j + 1)) 0]
  rw [Nat.zero_add, htl]
  rfl

/-- Claim C10: a pair whose processing raises an exception with message `m`
yields an error entry whose verdict text is the fixed prefix followed by
`m`; when `m` does not contain the marker `DISCREPANCY`, neither does the
verdict text, so the entry contributes nothing to `discrepancy_count` and
one unit to `match_count` — the local failure is counted as a match. -/
theorem claim10_error_counted_as_match
    (step : Nat → UploadedFile × UploadedFile → Except String String)
    (pairs : List (UploadedFile × UploadedFile)) (j : Nat) (m : String)
    (hj : j < pairs.length)
    (hs : step j (pairs.getD j defaultPair) = Except.error m)
    (hm : containsSubstr m ("DISCREPANCY") = false) :
    ((runPairs step pairs).getD j defaultResult).isError = true
    ∧ ((runPairs step pairs).getD j defaultResult).result = errPrefix ++ m
    ∧ containsSubstr ((runPairs step pairs).getD j defaultResult).result ("DISCREPANCY") = false
    ∧ discrepancy_count (runPairs step pairs)
        = discrepancy_count ((runPairs step pairs).eraseIdx j)
    ∧ match_count (runPairs step pairs).length (runPairs step pairs)
        = match_count ((runPairs step pairs).eraseIdx j).length
            ((runPairs step pairs).eraseIdx j) + 1 := by
  have hget : (runPairs step pairs).getD j defaultResult
      = ⟨(pairs.getD j defaultPair).1.name, (pairs.getD j defaultPair).2.name,
          errPrefix ++ m, true⟩ := by
    rw [lem_runPairs_getD step pairs j hj]
    unfold processPair
    rw [hs]
  have hnomark : containsSubstr (errPrefix ++ m) ("DISCREPANCY") = false :=
    lem_errPrefix_no_marker m hm
  have hdec := lem_run_decomp step pairs j hj
  have htl : (runPairsFrom step 0 (pairs.take j)).length = j := by
    rw [lem_runPairsFrom_length, List.length_take]
    omega
  have herase : (runPairs step pairs).eraseIdx j
      = runPairsFrom step 0 (pairs.take j) ++ runPairsFrom step (j + 1) (pairs.drop (j + 1)) := by
    rw [hdec]
    have hx := lem_eraseIdx_append (runPairsFrom step 0 (pairs.take j))
      (processPair step j (pairs.getD j defaultPair))
      (runPairsFrom step (j + 1) (pairs.drop (j + 1)))
    rw [htl] at hx
    exact hx
  have hP : containsSubstr (processPair step j (pairs.getD j defaultPair)).result
      ("DISCREPANCY") = false := by
    unfold processPair
    rw [hs]
    exact hnomark
  refine ⟨by rw [hget], by rw [hget], by rw [hget]; exact hnomark, ?_, ?_⟩
  · rw [lem_discrepancy_count_eq, lem_discrepancy_count_eq, herase, hdec]
    rw [List.countP_append, List.countP_cons, List.countP_append, hP]
    simp
  · have hc1 := List.countP_le_length
      (p := fun r => containsSubstr r.result ("DISCREPANCY"))
      (l := runPairsFrom step 0 (pairs.take j))
    have hc2 := List.countP_le_length
      (p := fun r => containsSubstr r.result ("DISCREPANCY"))
      (l := runPairsFrom step (j + 1) (pairs.drop (j + 1)))
    unfold match_count
    rw [lem_discrepancy_count_eq, lem_discrepancy_count_eq, herase, hdec]
    rw [List.countP_append, List.countP_cons, List.countP_append, hP]
    simp only [List.length_append, List.length_cons, Bool.false_eq_true, if_false]
    omega

/-- Witness for the C10 theorem: three pairs, the second failing with a
message that does not contain the marker. -/
theorem claim10_witness :
    1 < demoPairs.length
    ∧ demoStep 1 (demoPairs.getD 1 defaultPair) = Except.error ("API connection failed")
    ∧ containsSubstr ("API connection failed") ("DISCREPANCY") = false
    ∧ (((runPairs demoStep demoPairs).getD 1 defaultResult).isError = true
        ∧ ((runPairs demoStep demoPairs).getD 1 defaultResult).result
            = errPrefix ++ "API connection failed"
        ∧ containsSubstr ((runPairs demoStep demoPairs).getD 1 defaultResult).result
            ("DISCREPANCY") = false
        ∧ discrepancy_count (runPairs demoStep demoPairs)
            = discrepancy_count ((runPairs demoStep demoPairs).eraseIdx 1)
        ∧ match_count (runPairs demoStep demoPairs).length (runPairs demoStep demoPairs)
            = match_count ((runPairs demoStep demoPairs).eraseIdx 1).length
                ((runPairs demoStep demoPairs).eraseIdx 1) + 1) :=
  ⟨by decide, by rfl, by decide,
    claim10_error_counted_as_match demoStep demoPairs 1 ("API connection failed")
      (by decide) (by rfl) (by decide)⟩

theorem lem_any_key_false (k : String) :
    ∀ (d : List (String × UploadedFile)), k ∉ d.map Prod.fst →
      d.any (fun p => decide (p.1 = k)) = false := by
  intro d
  induction d with
  | nil => intro _; rfl
  | cons p d ih =>
    intro h
    simp only [List.map_cons, List.mem_cons] at h
    push_neg at h
    simp only [List.any_cons, Bool.or_eq_false_iff]
    constructor
    · simp only [decide_eq_false_iff_not]
      intro hk
      exact h.1 hk.symm
    · exact ih h.2

theorem lem_buildDict_aux :
    ∀ (files : List UploadedFile) (acc : List (String × UploadedFile)),
      ((acc.map Prod.fst) ++ files.map fileKey).Nodup →
      files.foldl (fun d f => dictInsert d (fileKey f) f) acc
        = acc ++ files.map (fun f => (fileKey f, f)) := by
  intro files
  induction files with
  | nil => intro acc _; simp
  | cons f fs ih =>
    intro acc h
    have hnotmem : fileKey f ∉ acc.map Prod.fst := by
      rw [List.nodup_append] at h
      intro hmem
      exact h.2.2 hmem (by simp)
    have hins : dictInsert acc (fileKey f) f = acc ++ [(fileKey f, f)] := by
      unfold dictInsert
      rw [lem_any_key_false (fileKey f) acc hnotmem]
      simp
    simp only [List.foldl_cons, hins]
    rw [ih (acc ++ [(fileKey f, f)]) (by simpa using h)]
    simp

theorem lem_buildDict_nodup (files : List UploadedFile)
    (h : (files.map fileKey).Nodup) :
    buildDict files = files.map (fun f => (fileKey f, f)) := by
  unfold buildDict
  rw [lem_buildDict_aux files [] (by simpa using h)]
  simp

theorem lem_find?_map_kv (k : String) :
    ∀ (files : List UploadedFile),
      ((files.map (fun f => (fileKey f, f))).find? (fun p => decide (p.1 = k)))
        = (files.find? (fun f => decide (fileKey f = k))).map (fun f => (fileKey f, f)) := by
  intro files
  induction files with
  | nil => rfl
  | cons f fs ih =>
    simp only [List.map_cons, List.find?_cons]
    by_cases h : fileKey f = k
    · simp [h]
    · have hd : decide (fileKey f = k) = false := decide_eq_false h
      simp only [hd]
      exact ih

theorem lem_dictGet_map (files : List UploadedFile) (k : String) :
    dictGet (files.map (fun f => (fileKey f, f))) k
      = files.find? (fun f => decide (fileKey f = k)) := by
  unfold dictGet
  rw [lem_find?_map_kv k files]
  cases files.find? (fun f => decide (fileKey f = k)) with
  | none => rfl
  | some f => rfl

theorem lem_dictContains_map (k : String) :
    ∀ (files : List UploadedFile),
      dictContains (files.map (fun f => (fileKey f, f))) k
        = files.any (fun f => decide (fileKey f = k)) := by
  intro files
  induction files with
  | nil => rfl
  | cons f fs ih =>
    unfold dictContains at ih ⊢
    simp only [List.map_cons, List.any_cons]
    rw [ih]

theorem lem_any_mem (k : String) :
    ∀ (l : List String), l.any (fun x => decide (x = k)) = decide (k ∈ l) := by
  intro l
  induction l with
  | nil => simp
  | cons a l ih =>
    simp only [List.any_cons, ih, List.mem_cons]
    by_cases h : a = k
    · subst h; simp
    · have h2 : ¬ k = a := fun hh => h hh.symm
      simp [h, h2]

theorem lem_find?_isSome_any {α : Type} (p : α → Bool) :
    ∀ (l : List α), (l.find? p).isSome = l.any p := by
  intro l
  induction l with
  | nil => rfl
  | cons a l ih =>
    simp only [List.find?_cons, List.any_cons]
    cases h : p a with
    | true => rfl
    | false => simpa using ih

theorem lem_matched_eq (pdfs excels : List UploadedFile)
    (hp : (pdfs.map fileKey).Nodup) (he : (excels.map fileKey).Nodup) :
    (matchFiles pdfs excels).matched
      = pdfs.filterMap (fun f =>
          (excels.find? (fun e => decide (fileKey e = fileKey f))).map (fun e => (f, e))) := by
  unfold matchFiles
  simp only [lem_buildDict_nodup pdfs hp, lem_buildDict_nodup excels he]
  rw [List.filterMap_map]
  apply List.filterMap_congr
  intro f _
  simp only [Function.comp_apply, lem_dictGet_map]

theorem lem_unmatchedP_eq (pdfs excels : List UploadedFile)
    (hp : (pdfs.map fileKey).Nodup) (he : (excels.map fileKey).Nodup) :
    (matchFiles pdfs excels).unmatched_pdfs
      = (pdfs.filter (fun f =>
          ! excels.any (fun e => decide (fileKey e = fileKey f)))).map (fun f => f.name) := by
  unfold matchFiles
  simp only [lem_buildDict_nodup pdfs hp, lem_buildDict_nodup excels he]
  rw [List.filter_map, List.map_map]
  have : (fun np => ! dictContains (excels.map (fun f => (fileKey f, f))) np.1)
        ∘ (fun f => (fileKey f, f))
      = fun f => ! excels.any (fun e => decide (fileKey e = fileKey f)) := by
    funext f
    simp only [Function.comp_apply, lem_dictContains_map]
  rw [this]
  rfl

theorem lem_unmatchedE_eq (pdfs excels : List UploadedFile)
    (hp : (pdfs.map fileKey).Nodup) (he : (excels.map fileKey).Nodup) :
    (matchFiles pdfs excels).unmatched_excels
      = (excels.filter (fun e =>
          ! pdfs.any (fun g => decide (fileKey g = fileKey e)))).map (fun e => e.name) := by
  unfold matchFiles
  simp only [lem_buildDict_nodup pdfs hp, lem_buildDict_nodup excels he]
  rw [List.filter_map, List.map_map]
  have : (fun ne => ! dictContains (pdfs.map (fun f => (fileKey f, f))) ne.1)
        ∘ (fun f => (fileKey f, f))
      = fun e => ! pdfs.any (fun g => decide (fileKey g = fileKey e)) := by
    funext e
    simp only [Function.comp_apply, lem_dictContains_map]
  rw [this]
  rfl

theorem lem_countP_unique {α : Type} (p : α → Bool) :
    ∀ (l : List α) (a₀ : α), l.Nodup → a₀ ∈ l → (∀ a ∈ l, p a = true → a = a₀) →
      l.countP p = if p a₀ then 1 else 0 := by
  intro l
  induction l with
  | nil => intro a₀ _ hmem _; simp at hmem
  | cons b l ih =>
    intro a₀ hnd hmem huniq
    rw [List.nodup_cons] at hnd
    rcases List.mem_cons.mp hmem with hb | hl
    · subst hb
      have hzero : l.countP p = 0 := by
        rw [List.countP_eq_zero]
        intro a ha hpa
        have := huniq a (List.mem_cons_of_mem a₀ ha) hpa
        subst this
        exact hnd.1 ha
      rw [List.countP_cons, hzero]
      simp
    · have hpb : p b = false := by
        cases hpb : p b with
        | false => rfl
        | true =>
          have := huniq b (List.mem_cons_self b l) hpb
          subst this
          exact absurd hl hnd.1
      rw [List.countP_cons, hpb]
      simp only [Bool.false_eq_true, if_false, Nat.add_zero]
      exact ih a₀ hnd.2 hl (fun a ha hpa => huniq a (List.mem_cons_of_mem b ha) hpa)

theorem lem_countP_or_disjoint {α : Type} (p q : α → Bool)
    (hdis : ∀ a, ¬(p a = true ∧ q a = true)) :
    ∀ (l : List α), l.countP (fun a => p a || q a) = l.countP p + l.countP q := by
  intro l
  induction l with
  | nil => rfl
  | cons a l ih =>
    simp only [List.countP_cons, ih]
    cases hp : p a with
    | true =>
      have hq : q a = false := by
        cases hq : q a with
        | false => rfl
        | true => exact absurd ⟨hp, hq⟩ (hdis a)
      simp [hq]
      omega
    | false =>
      cases hq : q a with
      | true => simp; omega
      | false => simp

theorem lem_countP_not {α : Type} (c : α → Bool) :
    ∀ (l : List α), l.countP c + l.countP (fun a => ! c a) = l.length := by
  intro l
  induction l with
  | nil => rfl
  | cons a l ih =>
    simp only [List.countP_cons, List.length_cons]
    cases h : c a with
    | true => simp; omega
    | false => simp; omega

theorem lem_count_mem_symm :
    ∀ (lp le : List String), lp.Nodup → le.Nodup →
      lp.countP (fun k => decide (k ∈ le)) = le.countP (fun k => decide (k ∈ lp)) := by
  intro lp
  induction lp with
  | nil =>
    intro le _ _
    simp only [List.countP_nil]
    rw [Eq.comm, List.countP_eq_zero]
    intro a _
    simp
  | cons k lp ih =>
    intro le hlp hle
    rw [List.nodup_cons] at hlp
    have hsplit : le.countP (fun x => decide (x ∈ k :: lp))
        = le.countP (fun x => decide (x = k) || decide (x ∈ lp)) := by
      apply List.countP_congr
      intro x _
      simp [List.mem_cons]
    have hdis : ∀ x : String, ¬(decide (x = k) = true ∧ decide (x ∈ lp) = true) := by
      intro x ⟨h1, h2⟩
      rw [decide_eq_true_eq] at h1 h2
      subst h1
      exact hlp.1 h2
    have hone : le.countP (fun x => decide (x = k)) = if k ∈ le then 1 else 0 := by
      by_cases hk : k ∈ le
      · have h1 := lem_countP_unique (fun x => decide (x = k)) le k hle hk
          (fun a _ ha => by rwa [decide_eq_true_eq] at ha)
        simpa [hk] using h1
      · rw [if_neg hk, List.countP_eq_zero]
        intro a ha hpa
        rw [decide_eq_true_eq] at hpa
        subst hpa
        exact hk ha
    rw [List.countP_cons, hsplit, lem_countP_or_disjoint _ _ hdis le, hone,
      ih le hlp.2 hle]
    by_cases hk : k ∈ le
    · simp [hk]; omega
    · simp [hk]

theorem lem_find?_key_unique :
    ∀ (l : List UploadedFile) (g : UploadedFile), (l.map fileKey).Nodup → g ∈ l →
      l.find? (fun e => decide (fileKey e = fileKey g)) = some g := by
  intro l
  induction l with
  | nil => intro g _ hmem; simp at hmem
  | cons h t ih =>
    intro g hnd hmem
    simp only [List.map_cons, List.nodup_cons] at hnd
    by_cases hk : fileKey h = fileKey g
    · have hg : h = g := by
        rcases List.mem_cons.mp hmem with hg | hg
        · exact hg.symm
        · exfalso
          apply hnd.1
          rw [hk]
          exact List.mem_map_of_mem fileKey hg
      rw [List.find?_cons, decide_eq_true hk]
      rw [hg]
    · have hg : g ∈ t := by
        rcases List.mem_cons.mp hmem with hg | hg
        · exact absurd (congrArg fileKey hg.symm) hk
        · exact hg
      rw [List.find?_cons, decide_eq_false hk]
      exact ih g hnd.2 hg

theorem lem_key_inj {l : List UploadedFile} (h : (l.map fileKey).Nodup)
    {a b : UploadedFile} (ha : a ∈ l) (hb : b ∈ l) (hk : fileKey a = fileKey b) :
    a = b :=
  List.inj_on_of_nodup_map h ha hb hk

theorem lem_F_isSome (excels : List UploadedFile) (f : UploadedFile) :
    ((excels.find? (fun e => decide (fileKey e = fileKey f))).map (fun e => (f, e))).isSome
      = excels.any (fun e => decide (fileKey e = fileKey f)) := by
  rw [← lem_find?_isSome_any]
  cases excels.find? (fun e => decide (fileKey e = fileKey f)) with
  | none => rfl
  | some e => rfl

theorem lem_any_key_mem (k : String) :
    ∀ (l : List UploadedFile),
      l.any (fun e => decide (fileKey e = k)) = decide (k ∈ l.map fileKey) := by
  intro l
  induction l with
  | nil => simp
  | cons f t ih =>
    simp only [List.any_cons, ih, List.map_cons, List.mem_cons]
    by_cases h : fileKey f = k
    · simp [h]
    · have h2 : ¬ k = fileKey f := fun hh => h hh.symm
      simp [h, h2]

theorem lem_matched_length (pdfs excels : List UploadedFile)
    (hp : (pdfs.map fileKey).Nodup) (he : (excels.map fileKey).Nodup) :
    (matchFiles pdfs excels).matched.length
      = pdfs.countP (fun f => excels.any (fun e => decide (fileKey e = fileKey f))) := by
  rw [lem_matched_eq pdfs excels hp he, List.length_filterMap_eq_countP]
  apply List.countP_congr
  intro f _
  rw [lem_F_isSome excels f]

theorem lem_countP_key_map (l : List UploadedFile) (ks : List String) :
    l.countP (fun f => decide (fileKey f ∈ ks))
      = (l.map fileKey).countP (fun x => decide (x ∈ ks)) := by
  rw [List.countP_map]
  rfl

/-- Claim C7: when the derived keys are distinct inside each collection,
the matcher's counts partition both inputs (`|matched| + |reportOnly| =
|reportFiles|` and `|matched| + |tabularOnly| = |tabularFiles|`), and every
key present in both collections yields exactly one matched pair. -/
theorem claim7_match_counts (pdfs excels : List UploadedFile)
    (hp : (pdfs.map fileKey).Nodup) (he : (excels.map fileKey).Nodup) :
    (matchFiles pdfs excels).matched.length
        + (matchFiles pdfs excels).unmatched_pdfs.length = pdfs.length
    ∧ (matchFiles pdfs excels).matched.length
        + (matchFiles pdfs excels).unmatched_excels.length = excels.length
    ∧ (∀ k : String, k ∈ pdfs.map fileKey → k ∈ excels.map fileKey →
        (matchFiles pdfs excels).matched.countP
          (fun pr => decide (fileKey pr.1 = k)) = 1) := by
  refine ⟨?_, ?_, ?_⟩
  · rw [lem_matched_length pdfs excels hp he, lem_unmatchedP_eq pdfs excels hp he,
      List.length_map, ← List.countP_eq_length_filter]
    exact lem_countP_not _ pdfs
  · have hc : pdfs.countP (fun f => excels.any (fun e => decide (fileKey e = fileKey f)))
        = excels.countP (fun e => pdfs.any (fun g => decide (fileKey g = fileKey e))) := by
      have h1 : pdfs.countP (fun f => excels.any (fun e => decide (fileKey e = fileKey f)))
          = pdfs.countP (fun f => decide (fileKey f ∈ excels.map fileKey)) := by
        apply List.countP_congr
        intro f _
        rw [lem_any_key_mem (fileKey f) excels]
      have h2 : excels.countP (fun e => pdfs.any (fun g => decide (fileKey g = fileKey e)))
          = excels.countP (fun e => decide (fileKey e ∈ pdfs.map fileKey)) := by
        apply List.countP_congr
        intro e _
        rw [lem_any_key_mem (fileKey e) pdfs]
      rw [h1, h2, lem_countP_key_map pdfs (excels.map fileKey),
        lem_countP_key_map excels (pdfs.map fileKey),
        lem_count_mem_symm (pdfs.map fileKey) (excels.map fileKey) hp he]
    rw [lem_matched_length pdfs excels hp he, lem_unmatchedE_eq pdfs excels hp he,
      List.length_map, ← List.countP_eq_length_filter, hc]
    exact lem_countP_not _ excels
  · intro k hkp hke
    rw [lem_matched_eq pdfs excels hp he, List.countP_filterMap]
    have hcongr : pdfs.countP
          (fun f => (((excels.find? (fun e => decide (fileKey e = fileKey f))).map
              (fun e => (f, e))).map (fun pr => decide (fileKey pr.1 = k))).getD false)
        = pdfs.countP (fun f => excels.any (fun e => decide (fileKey e = fileKey f))
            && decide (fileKey f = k)) := by
      apply List.countP_congr
      intro f _
      rw [← lem_find?_isSome_any]
      cases excels.find? (fun e => decide (fileKey e = fileKey f)) with
      | none => simp
      | some e => simp
    rw [hcongr]
    rcases List.mem_map.mp hkp with ⟨f₀, hf₀, hk₀⟩
    rcases List.mem_map.mp hke with ⟨e₀, he₀, hke₀⟩
    have hq : (excels.any (fun e => decide (fileKey e = fileKey f₀))
        && decide (fileKey f₀ = k)) = true := by
      rw [Bool.and_eq_true]
      constructor
      · apply List.any_eq_true.mpr
        exact ⟨e₀, he₀, decide_eq_true (by rw [hke₀, hk₀])⟩
      · exact decide_eq_true hk₀
    rw [lem_countP_unique _ pdfs f₀ (hp.of_map fileKey) hf₀ ?_, hq]
    · simp
    · intro a _ ha
      rw [Bool.and_eq_true] at ha
      rcases ha with ⟨_, ha2⟩
      rw [decide_eq_true_eq] at ha2
      exact lem_key_inj hp (by assumption) hf₀ (by rw [ha2, hk₀])

/-- Witness for the C7 theorem: two report files with distinct keys, one
tabular file sharing the first key. -/
theorem claim7_witness :
    (demoPdfs.map fileKey).Nodup
    ∧ (demoExcels.map fileKey).Nodup
    ∧ ((matchFiles demoPdfs demoExcels).matched.length
          + (matchFiles demoPdfs demoExcels).unmatched_pdfs.length = demoPdfs.length
        ∧ (matchFiles demoPdfs demoExcels).matched.length
          + (matchFiles demoPdfs demoExcels).unmatched_excels.length = demoExcels.length
        ∧ (∀ k : String, k ∈ demoPdfs.map fileKey → k ∈ demoExcels.map fileKey →
            (matchFiles demoPdfs demoExcels).matched.countP
              (fun pr => decide (fileKey pr.1 = k)) = 1)) :=
  ⟨by decide, by decide, claim7_match_counts demoPdfs demoExcels (by decide) (by decide)⟩

theorem lem_name_key {a b : UploadedFile} (h : a.name = b.name) :
    fileKey a = fileKey b := by
  unfold fileKey
  rw [h]

/-- Claim C2 counterexample: two report uploads whose names normalize to
the same key (`"a_invoice.pdf"` and `"a.pdf"` both map to `"a"`).  The dict
comprehension keeps only the last file per key, so `"a_invoice.pdf"`
appears in none of the three outputs — the matcher's output does not cover
every input file when keys collide inside one collection. -/
theorem claim2_counterexample :
    (matchFiles [⟨"a_invoice.pdf", [1]⟩, ⟨"a.pdf", [2]⟩] []).matched = []
    ∧ (matchFiles [⟨"a_invoice.pdf", [1]⟩, ⟨"a.pdf", [2]⟩] []).unmatched_pdfs = ["a.pdf"]
    ∧ (matchFiles [⟨"a_invoice.pdf", [1]⟩, ⟨"a.pdf", [2]⟩] []).unmatched_excels = []
    ∧ ((matchFiles [⟨"a_invoice.pdf", [1]⟩, ⟨"a.pdf", [2]⟩] []).matched.countP
          (fun pr => decide (pr.1 = ⟨"a_invoice.pdf", [1]⟩))
        + (matchFiles [⟨"a_invoice.pdf", [1]⟩, ⟨"a.pdf", [2]⟩] []).unmatched_pdfs.countP
            (fun n => decide (n = "a_invoice.pdf"))
        + (matchFiles [⟨"a_invoice.pdf", [1]⟩, ⟨"a.pdf", [2]⟩] []).unmatched_excels.countP
            (fun n => decide (n = "a_invoice.pdf"))) = 0 := by
  decide

/-- Claim C2 amended: provided the derived keys are distinct inside each
collection (no within-collection collisions), the matcher's output
partitions both inputs without loss: every report file occurs exactly once
across the three outputs (as the report slot of a matched pair or by name
in an unmatched list), and likewise every tabular file. -/
theorem claim2_partition_nodup (pdfs excels : List UploadedFile)
    (hp : (pdfs.map fileKey).Nodup) (he : (excels.map fileKey).Nodup) :
    (∀ f ∈ pdfs,
        (matchFiles pdfs excels).matched.countP (fun pr => decide (pr.1 = f))
        + (matchFiles pdfs excels).unmatched_pdfs.countP (fun n => decide (n = f.name))
        + (matchFiles pdfs excels).unmatched_excels.countP (fun n => decide (n = f.name)) = 1)
    ∧ (∀ g ∈ excels,
        (matchFiles pdfs excels).matched.countP (fun pr => decide (pr.2 = g))
        + (matchFiles pdfs excels).unmatched_pdfs.countP (fun n => decide (n = g.name))
        + (matchFiles pdfs excels).unmatched_excels.countP (fun n => decide (n = g.name)) = 1) := by
  constructor
  · intro f hf
    have h1 : (matchFiles pdfs excels).matched.countP (fun pr => decide (pr.1 = f))
        = if excels.any (fun e => decide (fileKey e = fileKey f)) then 1 else 0 := by
      rw [lem_matched_eq pdfs excels hp he, List.countP_filterMap]
      have hcongr : pdfs.countP
            (fun f' => (((excels.find? (fun e => decide (fileKey e = fileKey f'))).map
                (fun e => (f', e))).map (fun pr => decide (pr.1 = f))).getD false)
          = pdfs.countP (fun f' => excels.any (fun e => decide (fileKey e = fileKey f'))
              && decide (f' = f)) := by
        apply List.countP_congr
        intro f' _
        rw [← lem_find?_isSome_any]
        cases excels.find? (fun e => decide (fileKey e = fileKey f')) with
        | none => simp
        | some e => simp
      rw [hcongr, lem_countP_unique _ pdfs f (hp.of_map fileKey) hf ?_]
      · by_cases hc : excels.any (fun e => decide (fileKey e = fileKey f)) = true
        · simp [hc]
        · simp [hc]
      · intro a _ ha
        rw [Bool.and_eq_true] at ha
        rw [decide_eq_true_eq] at ha
        exact ha.2
    have h2 : (matchFiles pdfs excels).unmatched_pdfs.countP (fun n => decide (n = f.name))
        = if ! excels.any (fun e => decide (fileKey e = fileKey f)) then 1 else 0 := by
      rw [lem_unmatchedP_eq pdfs excels hp he, List.countP_map, List.countP_filter]
      have huniq : ∀ a ∈ pdfs,
          (((fun n => decide (n = f.name)) ∘ (fun f' => f'.name)) a
            && (! excels.any (fun e => decide (fileKey e = fileKey a)))) = true → a = f := by
        intro a ha hpa
        rw [Bool.and_eq_true] at hpa
        have hname : a.name = f.name := by
          have := hpa.1
          simpa using this
        exact lem_key_inj hp ha hf (lem_name_key hname)
      rw [lem_countP_unique _ pdfs f (hp.of_map fileKey) hf huniq]
      simp
    have h3 : (matchFiles pdfs excels).unmatched_excels.countP (fun n => decide (n = f.name))
        = 0 := by
      rw [lem_unmatchedE_eq pdfs excels hp he, List.countP_map, List.countP_filter]
      rw [List.countP_eq_zero]
      intro e he' hpe
      rw [Bool.and_eq_true] at hpe
      have hname : e.name = f.name := by
        have := hpe.1
        simpa using this
      have hc' : pdfs.any (fun g => decide (fileKey g = fileKey e)) = true := by
        apply List.any_eq_true.mpr
        exact ⟨f, hf, decide_eq_true (lem_name_key hname.symm)⟩
      rw [hc'] at hpe
      simpa using hpe.2
    rw [h1, h2, h3]
    by_cases hc : excels.any (fun e => decide (fileKey e = fileKey f)) = true
    · simp [hc]
    · simp [hc]
  · intro g hg
    have h1 : (matchFiles pdfs excels).matched.countP (fun pr => decide (pr.2 = g))
        = if fileKey g ∈ pdfs.map fileKey then 1 else 0 := by
      rw [lem_matched_eq pdfs excels hp he, List.countP_filterMap]
      by_cases hin : fileKey g ∈ pdfs.map fileKey
      · rcases List.mem_map.mp hin with ⟨f₀, hf₀, hkf₀⟩
        have huniq : ∀ a ∈ pdfs,
            (((excels.find? (fun e => decide (fileKey e = fileKey a))).map
                (fun e => (a, e))).map (fun pr => decide (pr.2 = g))).getD false = true →
              a = f₀ := by
          intro a ha hpa
          cases hfind : excels.find? (fun e => decide (fileKey e = fileKey a)) with
          | none => rw [hfind] at hpa; simp at hpa
          | some e =>
            rw [hfind] at hpa
            simp at hpa
            have hke : fileKey e = fileKey a := by
              have := List.find?_some hfind
              rwa [decide_eq_true_eq] at this
            apply lem_key_inj hp ha hf₀
            rw [← hke, hpa, hkf₀]
        rw [lem_countP_unique _ pdfs f₀ (hp.of_map fileKey) hf₀ huniq]
        rw [if_pos hin]
        have hpf₀ : (((excels.find? (fun e => decide (fileKey e = fileKey f₀))).map
            (fun e => (f₀, e))).map (fun pr => decide (pr.2 = g))).getD false = true := by
          rw [hkf₀, lem_find?_key_unique excels g he hg]
          simp
        rw [hpf₀]
        rfl
      · rw [if_neg hin, List.countP_eq_zero]
        intro a ha hpa
        cases hfind : excels.find? (fun e => decide (fileKey e = fileKey a)) with
        | none => rw [hfind] at hpa; simp at hpa
        | some e =>
          rw [hfind] at hpa
          simp at hpa
          have hke : fileKey e = fileKey a := by
            have := List.find?_some hfind
            rwa [decide_eq_true_eq] at this
          apply hin
          rw [hpa] at hke
          rw [hke]
          exact List.mem_map_of_mem fileKey ha
    have h2 : (matchFiles pdfs excels).unmatched_pdfs.countP (fun n => decide (n = g.name))
        = 0 := by
      rw [lem_unmatchedP_eq pdfs excels hp he, List.countP_map, List.countP_filter]
      rw [List.countP_eq_zero]
      intro f' hf' hpf
      rw [Bool.and_eq_true] at hpf
      have hname : f'.name = g.name := by
        have := hpf.1
        simpa using this
      have hc : excels.any (fun e => decide (fileKey e = fileKey f')) = true := by
        apply List.any_eq_true.mpr
        exact ⟨g, hg, decide_eq_true (lem_name_key hname.symm)⟩
      rw [hc] at hpf
      simpa using hpf.2
    have h3 : (matchFiles pdfs excels).unmatched_excels.countP (fun n => decide (n = g.name))
        = if fileKey g ∈ pdfs.map fileKey then 0 else 1 := by
      rw [lem_unmatchedE_eq pdfs excels hp he, List.countP_map, List.countP_filter]
      have huniq : ∀ e ∈ excels,
          (((fun n => decide (n = g.name)) ∘ (fun e' => e'.name)) e
            && (! pdfs.any (fun g' => decide (fileKey g' = fileKey e)))) = true → e = g := by
        intro e he' hpe
        rw [Bool.and_eq_true] at hpe
        have hname : e.name = g.name := by
          have := hpe.1
          simpa using this
        exact lem_key_inj he he' hg (lem_name_key hname)
      rw [lem_countP_unique _ excels g (he.of_map fileKey) hg huniq]
      have hck : pdfs.any (fun g' => decide (fileKey g' = fileKey g))
          = decide (fileKey g ∈ pdfs.map fileKey) := lem_any_key_mem (fileKey g) pdfs
      by_cases hin : fileKey g ∈ pdfs.map fileKey
      · simp [hck, hin]
      · simp [hck, hin]
    rw [h1, h2, h3]
    by_cases hin : fileKey g ∈ pdfs.map fileKey
    · simp [hin]
    · simp [hin]

/-- Witness for the amended C2 theorem at the concrete collections. -/
theorem claim2_witness :
    (demoPdfs.map fileKey).Nodup
    ∧ (demoExcels.map fileKey).Nodup
    ∧ ((∀ f ∈ demoPdfs,
          (matchFiles demoPdfs demoExcels).matched.countP (fun pr => decide (pr.1 = f))
          + (matchFiles demoPdfs demoExcels).unmatched_pdfs.countP
              (fun n => decide (n = f.name))
          + (matchFiles demoPdfs demoExcels).unmatched_excels.countP
              (fun n => decide (n = f.name)) = 1)
        ∧ (∀ g ∈ demoExcels,
          (matchFiles demoPdfs demoExcels).matched.countP (fun pr => decide (pr.2 = g))
          + (matchFiles demoPdfs demoExcels).unmatched_pdfs.countP
              (fun n => decide (n = g.name))
          + (matchFiles demoPdfs demoExcels).unmatched_excels.countP
              (fun n => decide (n = g.name)) = 1)) :=
  ⟨by decide, by decide, claim2_partition_nodup demoPdfs demoExcels (by decide) (by decide)⟩

theorem lem_lastIdxOf_none (c : Char) :
    ∀ (s : List Char), c ∉ s → lastIdxOf c s = none := by
  intro s
  induction s with
  | nil => intro _; rfl
  | cons a rest ih =>
    intro h
    simp only [List.mem_cons] at h
    push_neg at h
    unfold lastIdxOf
    rw [ih h.2]
    show (if a = c then some 0 else none) = none
    rw [if_neg (fun e : a = c => h.1 e.symm)]

theorem lem_stem_no_dot (s : List Char) (h : ('.') ∉ s) : stem s = s := by
  unfold stem
  rw [lem_lastIdxOf_none ('.') s h]

theorem lem_toNat_ofNat (n : Nat) (h : n < 55296) : (Char.ofNat n).toNat = n := by
  have hv : n.isValidChar := Or.inl h
  rw [Char.ofNat, dif_pos hv]
  rfl

theorem lem_toLower_toNat_upper (c : Char) (h : 65 ≤ c.toNat ∧ c.toNat ≤ 90) :
    (Char.toLower c).toNat = c.toNat + 32 := by
  unfold Char.toLower
  rw [if_pos ⟨h.1, h.2⟩]
  exact lem_toNat_ofNat (c.toNat + 32) (by omega)

theorem lem_toLower_fix_nonupper (c : Char) (h : ¬(65 ≤ c.toNat ∧ c.toNat ≤ 90)) :
    Char.toLower c = c := by
  unfold Char.toLower
  rw [if_neg (fun hc => h ⟨hc.1, hc.2⟩)]

theorem lem_toLower_idem (c : Char) :
    Char.toLower (Char.toLower c) = Char.toLower c := by
  by_cases h : 65 ≤ c.toNat ∧ c.toNat ≤ 90
  · have h1 := lem_toLower_toNat_upper c h
    apply lem_toLower_fix_nonupper
    rw [h1]
    omega
  · rw [lem_toLower_fix_nonupper c h]
    exact lem_toLower_fix_nonupper c h

theorem lem_ne_of_toNat {c d : Char} (h : c.toNat ≠ d.toNat) : c ≠ d :=
  fun e => h (congrArg Char.toNat e)

theorem lem_isWhitespace_toLower (c : Char) :
    (Char.toLower c).isWhitespace = c.isWhitespace := by
  by_cases h : 65 ≤ c.toNat ∧ c.toNat ≤ 90
  · have h1 := lem_toLower_toNat_upper c h
    have hc : c.isWhitespace = false := by
      have hsp : c ≠ ' ' := lem_ne_of_toNat (by
        have : (' ' : Char).toNat = 32 := rfl
        omega)
      have htb : c ≠ '\t' := lem_ne_of_toNat (by
        have : ('\t' : Char).toNat = 9 := rfl
        omega)
      have hcr : c ≠ '\r' := lem_ne_of_toNat (by
        have : ('\r' : Char).toNat = 13 := rfl
        omega)
      have hnl : c ≠ '\n' := lem_ne_of_toNat (by
        have : ('\n' : Char).toNat = 10 := rfl
        omega)
      simp [Char.isWhitespace, hsp, htb, hcr, hnl]
    have hd : (Char.toLower c).isWhitespace = false := by
      have hsp : Char.toLower c ≠ ' ' := lem_ne_of_toNat (by
        have : (' ' : Char).toNat = 32 := rfl
        omega)
      have htb : Char.toLower c ≠ '\t' := lem_ne_of_toNat (by
        have : ('\t' : Char).toNat = 9 := rfl
        omega)
      have hcr : Char.toLower c ≠ '\r' := lem_ne_of_toNat (by
        have : ('\r' : Char).toNat = 13 := rfl
        omega)
      have hnl : Char.toLower c ≠ '\n' := lem_ne_of_toNat (by
        have : ('\n' : Char).toNat = 10 := rfl
        omega)
      simp [Char.isWhitespace, hsp, htb, hcr, hnl]
    rw [hc, hd]
  · rw [lem_toLower_fix_nonupper c h]

theorem lem_dropWhile_idem (p : Char → Bool) :
    ∀ (l : List Char), List.dropWhile p (List.dropWhile p l) = List.dropWhile p l := by
  intro l
  induction l with
  | nil => rfl
  | cons a l ih =>
    by_cases hp : p a = true
    · simp [List.dropWhile_cons, hp, ih]
    · simp [List.dropWhile_cons, hp]

theorem lem_dropWhile_eq_drop (p : Char → Bool) :
    ∀ (l : List Char), ∃ n, List.dropWhile p l = l.drop n := by
  intro l
  induction l with
  | nil => exact ⟨0, rfl⟩
  | cons a l ih =>
    by_cases hp : p a = true
    · rcases ih with ⟨n, hn⟩
      exact ⟨n + 1, by simp [List.dropWhile_cons, hp, hn]⟩
    · exact ⟨0, by simp [List.dropWhile_cons, hp]⟩

theorem lem_dropWhile_map_toLower :
    ∀ (l : List Char),
      List.dropWhile Char.isWhitespace (l.map Char.toLower)
        = (List.dropWhile Char.isWhitespace l).map Char.toLower := by
  intro l
  induction l with
  | nil => rfl
  | cons a l ih =>
    by_cases h : a.isWhitespace = true
    · simp [List.dropWhile_cons, lem_isWhitespace_toLower, h, ih]
    · simp [List.dropWhile_cons, lem_isWhitespace_toLower, h]

theorem lem_stripLead_map (l : List Char) :
    stripLead (l.map Char.toLower) = (stripLead l).map Char.toLower := by
  unfold stripLead
  exact lem_dropWhile_map_toLower l

theorem lem_stripTrail_map (l : List Char) :
    stripTrail (l.map Char.toLower) = (stripTrail l).map Char.toLower := by
  unfold stripTrail
  rw [← List.map_reverse, lem_dropWhile_map_toLower, ← List.map_reverse]

theorem lem_pyStrip_map (l : List Char) :
    pyStrip (l.map Char.toLower) = (pyStrip l).map Char.toLower := by
  unfold pyStrip
  rw [lem_stripLead_map, lem_stripTrail_map]

theorem lem_stripLead_idem (l : List Char) : stripLead (stripLead l) = stripLead l := by
  unfold stripLead
  exact lem_dropWhile_idem Char.isWhitespace l

theorem lem_stripTrail_idem (l : List Char) : stripTrail (stripTrail l) = stripTrail l := by
  unfold stripTrail
  rw [List.reverse_reverse, lem_dropWhile_idem]

theorem lem_stripLead_stripTrail (l : List Char) (h : stripLead l = l) :
    stripLead (stripTrail l) = stripTrail l := by
  obtain ⟨n, hn⟩ := lem_dropWhile_eq_drop Char.isWhitespace l.reverse
  have hpre : l = stripTrail l ++ (l.reverse.take n).reverse := by
    calc l = (l.reverse).reverse := (List.reverse_reverse l).symm
    _ = (l.reverse.take n ++ l.reverse.drop n).reverse := by rw [List.take_append_drop]
    _ = (l.reverse.drop n).reverse ++ (l.reverse.take n).reverse := by
        rw [List.reverse_append]
    _ = stripTrail l ++ (l.reverse.take n).reverse := by unfold stripTrail; rw [hn]
  cases hcase : stripTrail l with
  | nil => rfl
  | cons a u =>
    rw [hcase] at hpre
    have hl : l = a :: (u ++ (l.reverse.take n).reverse) := by simpa using hpre
    unfold stripLead at h
    rw [hl, List.dropWhile_cons] at h
    by_cases hw : a.isWhitespace = true
    · exfalso
      rw [if_pos hw] at h
      have hlen := congrArg List.length h
      obtain ⟨m, hm⟩ := lem_dropWhile_eq_drop Char.isWhitespace
        (u ++ (l.reverse.take n).reverse)
      rw [hm] at hlen
      simp only [List.length_drop, List.length_cons] at hlen
      omega
    · unfold stripLead
      rw [List.dropWhile_cons, if_neg hw]

theorem lem_pyStrip_idem (l : List Char) : pyStrip (pyStrip l) = pyStrip l := by
  unfold pyStrip
  rw [lem_stripLead_stripTrail (stripLead l) (lem_stripLead_idem l)]
  exact lem_stripTrail_idem (stripLead l)

theorem lem_removeAll_noop :
    ∀ (pat s : List Char), isInfixB pat s = false → removeAll pat s = s := by
  intro pat s
  induction s with
  | nil => intro _; rfl
  | cons c rest ih =>
    intro h
    unfold isInfixB at h
    rw [Bool.or_eq_false_iff] at h
    unfold removeAll at ih ⊢
    simp only [removeAllAux]
    rw [if_neg (fun hc => by rw [h.1] at hc; exact Bool.false_ne_true hc.2)]
    rw [ih h.2]

theorem lem_fold_removeAll_noop (g : List Char)
    (h : ∀ tok ∈ suffixTokens, isInfixB tok.data g = false) :
    suffixTokens.foldl (fun n tok => removeAll tok.data n) g = g := by
  have h1 := h "_invoice" (by simp [suffixTokens])
  have h2 := h "_claim" (by simp [suffixTokens])
  have h3 := h "_statement" (by simp [suffixTokens])
  have h4 := h " invoice" (by simp [suffixTokens])
  have h5 := h " claim" (by simp [suffixTokens])
  have h6 := h " statement" (by simp [suffixTokens])
  simp only [suffixTokens, List.foldl_cons, List.foldl_nil]
  rw [lem_removeAll_noop _ _ h1, lem_removeAll_noop _ _ h2, lem_removeAll_noop _ _ h3,
    lem_removeAll_noop _ _ h4, lem_removeAll_noop _ _ h5, lem_removeAll_noop _ _ h6]

/-- Claim C6 amended: `get_base_name` is idempotent on every filename whose
derived key contains no `'.'` and contains none of the six suffix tokens as
a substring.  (The counterexample shows idempotence fails in general: a
second pass strips another extension from a key that still contains a dot,
and can strip a suffix token uncovered by the final lower-casing.) -/
theorem claim6_idempotent_on_clean_keys (f : String)
    (hdot : ('.') ∉ (get_base_name f).data)
    (htok : ∀ tok ∈ suffixTokens, isInfixB tok.data (get_base_name f).data = false) :
    get_base_name (get_base_name f) = get_base_name f := by
  have hg : (get_base_name f).data
      = (pyStrip (suffixTokens.foldl (fun n tok => removeAll tok.data n)
          (stem f.data))).map Char.toLower := rfl
  show String.mk ((pyStrip (suffixTokens.foldl (fun n tok => removeAll tok.data n)
      (stem (get_base_name f).data))).map Char.toLower) = get_base_name f
  rw [lem_stem_no_dot _ hdot, lem_fold_removeAll_noop _ htok, hg]
  rw [lem_pyStrip_map, lem_pyStrip_idem, List.map_map]
  rw [show Char.toLower ∘ Char.toLower = Char.toLower from funext lem_toLower_idem]
  rfl

/-- Witness for the amended C6 theorem at the spec's example filename. -/
theorem claim6_witness :
    ('.') ∉ (get_base_name ("claim_001_invoice.pdf")).data
    ∧ (∀ tok ∈ suffixTokens,
        isInfixB tok.data (get_base_name ("claim_001_invoice.pdf")).data = false)
    ∧ get_base_name (get_base_name ("claim_001_invoice.pdf"))
        = get_base_name ("claim_001_invoice.pdf") :=
  ⟨by decide, by decide,
    claim6_idempotent_on_clean_keys ("claim_001_invoice.pdf") (by decide) (by decide)⟩
